import Mathlib

/- Verification of the progressive bucket-listing engine of s3-bucket-diver.

   Embedded source:
   - `S3Client.list_files_progressive` (src/backend/s3_operations.py), including
     its exception mapping;
   - `S3Worker.run` (src/backend/workers.py): the retry loop, backoff wait,
     cooperative cancellation flag and the emitted Qt signals;
   - pagination state of the main window (src/s3_browser_app.py):
     `_recalculate_pagination`, `_update_pagination_controls`,
     `on_additional_files_loaded`;
   - `FileListWidget.filter_files` (src/ui/file_list_widget.py).

   Machine integers do not occur (Python ints are unbounded); lists model the
   ordered collections, `Except` models exceptions, and the worker run is
   instrumented with an explicit action trace so that flag reads, sleeps and
   signal emissions can be reasoned about. -/

/-- One object record, the `file_info` dict built per object in
`list_files_progressive`. -/
structure FileInfo where
  key : String
  size : Nat
  last_modified : String
  etag : String
  storage_class : String
  deriving Repr, DecidableEq

/-- The `page_info` dict passed to `page_callback` in
`list_files_progressive`. -/
structure PageInfo where
  files : List FileInfo
  page_number : Nat
  files_in_page : Nat
  total_files_so_far : Nat
  is_last_page : Bool
  deriving Repr, DecidableEq

/-- The result dict returned by `list_files_progressive`. -/
structure ListResult where
  pages_processed : Nat
  total_files_found : Nat
  stopped_at_limit : Bool
  deriving Repr, DecidableEq

/-- `S3Client.list_files_progressive` (src/backend/s3_operations.py, lines
74-128).  The boto3 paginator is modelled by `store` (the pages it yields, a
page being its possibly empty `Contents` list) together with `err`: after
yielding every page of `store` the iterator either ends normally
(`err = none`) or raises an exception carrying message `e` (`err = some e`).
`pc` and `tf` are the source's `page_count` and `total_files`; the page
callback is abstract over a state `σ`, exactly as `page_callback` is an
arbitrary callable in the source, and it is invoked only when `page_files`
is non-empty (`if page_callback and page_files`).  The loop breaks once
`page_count >= max_pages`. -/
def list_files_progressive {σ : Type} (cb : σ → PageInfo → σ) (max_pages : Nat) :
    List (List FileInfo) → Option String → Nat → Nat → σ → σ × Except String ListResult
  | [], err, pc, tf, s =>
    match err with
    | some e => (s, Except.error e)
    | none => (s, Except.ok ⟨pc, tf, decide (pc ≥ max_pages)⟩)
  | page :: rest, err, pc, tf, s =>
    let pc' := pc + 1
    let tf' := tf + page.length
    let s' := if page.isEmpty then s
      else cb s ⟨page, pc', page.length, tf', decide (pc' ≥ max_pages)⟩
    if pc' ≥ max_pages then (s', Except.ok ⟨pc', tf', true⟩)
    else list_files_progressive cb max_pages rest err pc' tf' s'

/-- Callback that just records each page event in order (how the emitted
`page_loaded` signals observe a run). -/
def collectCb (evs : List PageInfo) (p : PageInfo) : List PageInfo := evs ++ [p]

/-- The sequence of page events a run over `store` emits. -/
def listEvents (store : List (List FileInfo)) (max_pages : Nat) : List PageInfo :=
  (list_files_progressive collectCb max_pages store none 0 0 []).1

/-- The result dict of a run over `store` that raises no exception. -/
def listRes (store : List (List FileInfo)) (max_pages : Nat) : ListResult :=
  match (list_files_progressive collectCb max_pages store none 0 0 []).2 with
  | Except.ok r => r
  | Except.error _ => ⟨0, 0, false⟩

/-- `page_number` fields are strictly increasing, starting above `p`. -/
def pagesIncreasing : Nat → List PageInfo → Bool
  | _, [] => true
  | p, e :: es => decide (p < e.page_number) && pagesIncreasing e.page_number es

/-- `page_number` fields are exactly `p+1, p+2, ...` (no gaps). -/
def pagesConsecutive : Nat → List PageInfo → Bool
  | _, [] => true
  | p, e :: es => (e.page_number == p + 1) && pagesConsecutive (p + 1) es

/-- Each event's `total_files_so_far` is the running sum, starting from `t`,
of the `files_in_page` fields of the events so far. -/
def totalsOk : Nat → List PageInfo → Bool
  | _, [] => true
  | t, e :: es => (e.total_files_so_far == t + e.files_in_page) && totalsOk (t + e.files_in_page) es

/-- A sample record used for concrete runs. -/
def sampleFile (k : String) : FileInfo :=
  ⟨k, 1, "2024-01-01 00:00:00", "etag0", "STANDARD"⟩

section PureListingLemmas

/-- The collecting callback only appends: a run from accumulator `acc` yields
`acc ++` the run from the empty accumulator. -/
theorem collect_acc (store : List (List FileInfo)) (mp : Nat) (err : Option String)
    (pc tf : Nat) (acc : List PageInfo) :
    (list_files_progressive collectCb mp store err pc tf acc).1 =
      acc ++ (list_files_progressive collectCb mp store err pc tf []).1 := by
  induction store generalizing pc tf acc with
  | nil =>
    cases err <;> simp [list_files_progressive]
  | cons page rest ih =>
    simp only [list_files_progressive, collectCb]
    by_cases hcut : pc + 1 ≥ mp
    · by_cases hemp : page.isEmpty <;> simp [hcut, hemp]
    · by_cases hemp : page.isEmpty
      · simp only [hcut, hemp, ite_true, ite_false, if_true, if_false, if_neg, if_pos,
          not_false_iff]
        exact ih _ _ _
      · simp only [hcut, hemp, ite_true, ite_false, if_true, if_false, if_neg, if_pos,
          not_false_iff, Bool.false_eq_true]
        rw [ih _ _ (acc ++ [_]), ih _ _ ([] ++ [_])]
        simp

/-- Helper: a run with `err = none` never returns an error. -/
theorem collect_none_ok (store : List (List FileInfo)) (mp : Nat)
    (pc tf : Nat) (acc : List PageInfo) :
    ∃ r, (list_files_progressive collectCb mp store none pc tf acc).2 = Except.ok r := by
  induction store generalizing pc tf acc with
  | nil => exact ⟨_, rfl⟩
  | cons page rest ih =>
    by_cases hcut : pc + 1 ≥ mp <;>
      simp only [list_files_progressive, hcut, if_true, if_false, if_pos, if_neg]
    · exact ⟨_, rfl⟩
    · exact ih _ _ _

/-- Result invariant: starting from `page_count = pc < max_pages`, the final
`pages_processed` stays `≤ max_pages`, `stopped_at_limit` holds exactly when
the limit was reached, and `pages_processed ≥ pc`. -/
theorem collect_res_spec (store : List (List FileInfo)) (mp : Nat)
    (pc tf : Nat) (acc : List PageInfo) (hpc : pc < mp) (r : ListResult)
    (hr : (list_files_progressive collectCb mp store none pc tf acc).2 = Except.ok r) :
    r.pages_processed ≤ mp ∧ (r.stopped_at_limit = true ↔ r.pages_processed = mp) := by
  induction store generalizing pc tf acc with
  | nil =>
    simp only [list_files_progressive, Except.ok.injEq] at hr
    subst hr
    refine ⟨le_of_lt hpc, ?_⟩
    show decide (pc ≥ mp) = true ↔ pc = mp
    simp only [decide_eq_true_eq]
    omega
  | cons page rest ih =>
    by_cases hcut : pc + 1 ≥ mp
    · simp only [list_files_progressive, if_pos hcut, Except.ok.injEq] at hr
      subst hr
      refine ⟨?_, ?_⟩ <;> simp <;> omega
    · simp only [list_files_progressive, if_neg hcut] at hr
      exact ih _ _ _ (by omega) hr

/-- Strict increase only constrains from below: lowering the bound keeps it. -/
theorem pagesIncreasing_mono {a b : Nat} (h : b ≤ a) :
    ∀ es, pagesIncreasing a es = true → pagesIncreasing b es = true
  | [], _ => rfl
  | e :: es, hp => by
    simp only [pagesIncreasing, Bool.and_eq_true, decide_eq_true_eq] at hp ⊢
    exact ⟨by omega, hp.2⟩

/-- Emitted `page_number`s are strictly increasing, starting above the entry
`page_count`. -/
theorem collect_increasing (store : List (List FileInfo)) (mp : Nat) :
    ∀ pc tf, pagesIncreasing pc (list_files_progressive collectCb mp store none pc tf []).1 = true := by
  induction store with
  | nil => intro pc tf; simp [list_files_progressive, pagesIncreasing]
  | cons page rest ih =>
    intro pc tf
    by_cases hcut : pc + 1 ≥ mp
    · by_cases hemp : page.isEmpty <;>
        simp [list_files_progressive, hcut, hemp, pagesIncreasing, collectCb]
    · by_cases hemp : page.isEmpty
      · simp only [list_files_progressive, collectCb, if_neg hcut, if_pos hemp]
        exact pagesIncreasing_mono (Nat.le_succ pc) _ (ih (pc + 1) (tf + page.length))
      · simp only [list_files_progressive, collectCb, if_neg hcut, if_neg hemp,
          List.nil_append]
        rw [collect_acc]
        simp only [List.singleton_append, pagesIncreasing, Bool.and_eq_true,
          decide_eq_true_eq]
        exact ⟨Nat.lt_succ_self pc, ih (pc + 1) (tf + page.length)⟩

/-- Emitted `total_files_so_far` values form the running sum of
`files_in_page`, offset by the entry `total_files`. -/
theorem collect_totals (store : List (List FileInfo)) (mp : Nat) :
    ∀ pc tf, totalsOk tf (list_files_progressive collectCb mp store none pc tf []).1 = true := by
  induction store with
  | nil => intro pc tf; simp [list_files_progressive, totalsOk]
  | cons page rest ih =>
    intro pc tf
    by_cases hcut : pc + 1 ≥ mp
    · by_cases hemp : page.isEmpty <;>
        simp [list_files_progressive, hcut, hemp, totalsOk, collectCb]
    · by_cases hemp : page.isEmpty
      · simp only [list_files_progressive, collectCb, if_neg hcut, if_pos hemp]
        have hlen : page.length = 0 := by
          simpa [List.isEmpty_iff] using hemp
        rw [hlen]
        exact ih (pc + 1) (tf + 0)
      · simp only [list_files_progressive, collectCb, if_neg hcut, if_neg hemp,
          List.nil_append]
        rw [collect_acc]
        simp only [List.singleton_append, totalsOk, Bool.and_eq_true, beq_iff_eq]
        exact ⟨trivial, ih (pc + 1) (tf + page.length)⟩

/-- When every page the paginator yields is non-empty, the emitted
`page_number`s are exactly consecutive from the entry `page_count`. -/
theorem collect_consecutive (store : List (List FileInfo)) (mp : Nat)
    (hne : ∀ p ∈ store, p ≠ []) :
    ∀ pc tf, pagesConsecutive pc (list_files_progressive collectCb mp store none pc tf []).1 = true := by
  induction store with
  | nil => intro pc tf; simp [list_files_progressive, pagesConsecutive]
  | cons page rest ih =>
    intro pc tf
    have hemp : ¬page.isEmpty = true := by
      simp only [List.isEmpty_iff]
      exact hne page (by simp)
    have hrest : ∀ p ∈ rest, p ≠ [] := fun p hp => hne p (by simp [hp])
    by_cases hcut : pc + 1 ≥ mp
    · simp [list_files_progressive, hcut, hemp, pagesConsecutive, collectCb]
    · simp only [list_files_progressive, collectCb, if_neg hcut, if_neg hemp,
        List.nil_append]
      rw [collect_acc]
      simp only [List.singleton_append, pagesConsecutive, Bool.and_eq_true, beq_iff_eq]
      exact ⟨trivial, ih hrest (pc + 1) (tf + page.length)⟩

/-- Every emitted event has `is_last_page = (page_number ≥ max_pages)`. -/
theorem collect_is_last (store : List (List FileInfo)) (mp : Nat) :
    ∀ pc tf, ∀ e ∈ (list_files_progressive collectCb mp store none pc tf []).1,
      e.is_last_page = decide (e.page_number ≥ mp) := by
  induction store with
  | nil => intro pc tf e he; simp [list_files_progressive] at he
  | cons page rest ih =>
    intro pc tf e he
    by_cases hcut : pc + 1 ≥ mp
    · by_cases hemp : page.isEmpty
      · simp only [list_files_progressive, collectCb, if_pos hcut, if_pos hemp] at he
        simp at he
      · simp only [list_files_progressive, collectCb, if_pos hcut, if_neg hemp,
          List.nil_append, List.mem_singleton] at he
        subst he
        simp [hcut]
    · by_cases hemp : page.isEmpty
      · simp only [list_files_progressive, collectCb, if_neg hcut, if_pos hemp] at he
        exact ih (pc + 1) (tf + page.length) e he
      · simp only [list_files_progressive, collectCb, if_neg hcut, if_neg hemp,
          List.nil_append] at he
        rw [collect_acc] at he
        simp only [List.singleton_append, List.mem_cons] at he
        rcases he with he | he
        · subst he
          simp [hcut]
        · exact ih (pc + 1) (tf + page.length) e he

end PureListingLemmas

/-- The concrete store of the C3 scenario: three pages of two records each. -/
def scenarioStore : List (List FileInfo) :=
  [[sampleFile "k1", sampleFile "k2"], [sampleFile "k3", sampleFile "k4"],
   [sampleFile "k5", sampleFile "k6"]]

/-- **C1** (amended).  For every listing run, the emitted page events have
strictly increasing `page_number`, and after the n-th event
`total_files_so_far` equals the sum of the `files_in_page` fields of events
1..n.  The events are moreover gap-free (the n-th event has `page_number` n)
whenever every page the paginator yields is non-empty; a page without
`Contents` advances `page_count` but emits no event, so in general the
claimed gap-freeness fails (see the counterexample). -/
theorem C1_page_event_invariants (store : List (List FileInfo)) (mp : Nat) :
    pagesIncreasing 0 (listEvents store mp) = true ∧
    totalsOk 0 (listEvents store mp) = true ∧
    ((∀ p ∈ store, p ≠ []) → pagesConsecutive 0 (listEvents store mp) = true) :=
  ⟨collect_increasing store mp 0 0, collect_totals store mp 0 0,
   fun h => collect_consecutive store mp h 0 0⟩

/-- **C1** counterexample: when the first page of the store has no
`Contents`, the single emitted event carries `page_number` 2, so the
sequence of emitted events is not gap-free (the 1st event does not have
`page_number` 1), refuting the claim as stated. -/
theorem C1_counterexample :
    pagesConsecutive 0 (listEvents [[], [sampleFile "a"]] 10) = false := by decide

/-- **C1** witness: a store of two non-empty pages satisfies the non-empty
hypothesis and its events are consecutively numbered. -/
theorem C1_witness :
    (∀ p ∈ [[sampleFile "a"], [sampleFile "b"]], p ≠ ([] : List FileInfo)) ∧
    pagesConsecutive 0 (listEvents [[sampleFile "a"], [sampleFile "b"]] 10) = true :=
  ⟨by decide, (C1_page_event_invariants [[sampleFile "a"], [sampleFile "b"]] 10).2.2 (by decide)⟩

/-- **C3**.  For every run with positive `max_pages`, `pages_processed` is at
most `max_pages` and `stopped_at_limit` holds exactly when `pages_processed`
reached `max_pages`; in the concrete scenario (`max_pages = 2`, a store of 3
pages of 2 records) the run stops after page 2 with `stopped_at_limit = true`
and 4 files found. -/
theorem C3_pages_bound_and_stop (store : List (List FileInfo)) (mp : Nat) (h : 0 < mp) :
    ((listRes store mp).pages_processed ≤ mp ∧
      ((listRes store mp).stopped_at_limit = true ↔ (listRes store mp).pages_processed = mp)) ∧
    listRes scenarioStore 2 = ⟨2, 4, true⟩ := by
  obtain ⟨r, hr⟩ := collect_none_ok store mp 0 0 []
  have hspec := collect_res_spec store mp 0 0 [] h r hr
  refine ⟨?_, by decide⟩
  simpa [listRes, hr] using hspec

/-- **C3** witness: the theorem applied to the scenario store with
`max_pages = 2`. -/
theorem C3_witness :
    0 < 2 ∧
      (((listRes scenarioStore 2).pages_processed ≤ 2 ∧
        ((listRes scenarioStore 2).stopped_at_limit = true ↔
          (listRes scenarioStore 2).pages_processed = 2)) ∧
      listRes scenarioStore 2 = ⟨2, 4, true⟩) :=
  ⟨by decide, C3_pages_bound_and_stop scenarioStore 2 (by decide)⟩

/-- **C10**.  Every emitted page event has `is_last_page` true exactly when
its `page_number` is at least `max_pages`; in particular a run over a store
that is exhausted before `max_pages` (here 2 pages with `max_pages = 5`)
emits its final event with `is_last_page = false`. -/
theorem C10_is_last_page_iff :
    (∀ store mp e, e ∈ listEvents store mp → e.is_last_page = decide (e.page_number ≥ mp)) ∧
    (listEvents [[sampleFile "a"], [sampleFile "b"]] 5).map PageInfo.is_last_page = [false, false] :=
  ⟨fun store mp e he => collect_is_last store mp 0 0 e he, by decide⟩

/-- **C10** witness: the first event of a concrete short run is in the event
list and satisfies the equivalence. -/
theorem C10_witness :
    (⟨[sampleFile "a"], 1, 1, 1, false⟩ : PageInfo) ∈ listEvents [[sampleFile "a"], [sampleFile "b"]] 5 ∧
    (⟨[sampleFile "a"], 1, 1, 1, false⟩ : PageInfo).is_last_page =
      decide ((⟨[sampleFile "a"], 1, 1, 1, false⟩ : PageInfo).page_number ≥ 5) :=
  ⟨by decide, C10_is_last_page_iff.1 [[sampleFile "a"], [sampleFile "b"]] 5 _ (by decide)⟩

/-! ## Main-window pagination state (src/s3_browser_app.py) -/

/-- An entry of `self.pages_from_s3` in the main window (`on_page_loaded`
appends `{page_number, files_count}` dicts). -/
structure PageEntry where
  page_number : Nat
  files_count : Nat
  deriving Repr, DecidableEq

/-- The pagination-relevant state of `S3BrowserMainWindow`. -/
structure AppState where
  all_loaded_files : List FileInfo
  current_page : Nat
  total_pages_available : Nat
  files_per_page : Nat
  pages_from_s3 : List PageEntry
  is_loading_more : Bool
  deriving Repr, DecidableEq

/-- `S3BrowserMainWindow._recalculate_pagination` (src/s3_browser_app.py,
lines 277-289): recompute `total_pages_available` with the rounded-up
division and pull `current_page` down when it exceeds the new count. -/
def recalculate_pagination (st : AppState) : AppState :=
  let total_files := st.all_loaded_files.length
  let total := max 1 ((total_files + st.files_per_page - 1) / st.files_per_page)
  let cur := if st.current_page > total then total else st.current_page
  { st with total_pages_available := total, current_page := cur }

/-- The visibility condition computed in
`S3BrowserMainWindow._update_pagination_controls` (lines 253-275). -/
def should_show_load_more (st : AppState) : Bool :=
  decide (st.pages_from_s3.length ≥ 10) && (st.pages_from_s3.length % 10 == 0) &&
    decide (st.all_loaded_files.length ≥ st.pages_from_s3.length * 1000)

/-- `setVisible(should_show_load_more and not self.is_loading_more)`. -/
def load_more_visible (st : AppState) : Bool :=
  should_show_load_more st && !st.is_loading_more

/-- `S3BrowserMainWindow.on_additional_files_loaded` (lines 329-344): the
superseding run's complete record list replaces `all_loaded_files`
wholesale, then pagination is recomputed. -/
def on_additional_files_loaded (st : AppState) (files : List FileInfo) : AppState :=
  recalculate_pagination { st with all_loaded_files := files }

/-- Callback accumulating each emitted page's files, as
`all_files.extend(page_info[...])` does in `S3Worker.run.on_page_loaded`
(src/backend/workers.py) when no stop was requested. -/
def collectFilesCb (acc : List FileInfo) (p : PageInfo) : List FileInfo := acc ++ p.files

/-- The complete record list an uncancelled run hands to `files_loaded`. -/
def runAllFiles (store : List (List FileInfo)) (mp : Nat) : List FileInfo :=
  (list_files_progressive collectFilesCb mp store none 0 0 []).1

/-- The accumulated file list of an uncancelled run has exactly
`total_files_found` records. -/
theorem runAllFiles_length (store : List (List FileInfo)) (mp : Nat) :
    ∀ pc tf acc r,
      (list_files_progressive collectFilesCb mp store none pc tf acc).2 = Except.ok r →
      ((list_files_progressive collectFilesCb mp store none pc tf acc).1).length + tf =
        acc.length + r.total_files_found := by
  induction store with
  | nil =>
    intro pc tf acc r hr
    simp only [list_files_progressive, Except.ok.injEq] at hr
    subst hr
    simp [list_files_progressive]
  | cons page rest ih =>
    intro pc tf acc r hr
    by_cases hcut : pc + 1 ≥ mp
    · simp only [list_files_progressive, collectFilesCb, if_pos hcut, Except.ok.injEq] at hr ⊢
      subst hr
      by_cases hemp : page.isEmpty
      · have hlen : page.length = 0 := by simpa [List.isEmpty_iff] using hemp
        simp [hemp, hlen]
      · simp [hemp]
        omega
    · simp only [list_files_progressive, collectFilesCb, if_neg hcut] at hr ⊢
      by_cases hemp : page.isEmpty
      · have hlen : page.length = 0 := by simpa [List.isEmpty_iff] using hemp
        simp only [hemp, ite_true, if_pos] at hr ⊢
        have := ih (pc + 1) (tf + page.length) acc r hr
        omega
      · simp only [hemp, ite_false, if_neg, Bool.false_eq_true, not_false_iff] at hr ⊢
        have := ih (pc + 1) (tf + page.length) (acc ++ page) r hr
        simp at this ⊢
        omega

/-- Concrete 250-record state with `current_page = 5`, `files_per_page = 100`. -/
def sample250 : AppState :=
  ⟨List.replicate 250 (sampleFile "x"), 5, 1, 100, [], false⟩

set_option maxRecDepth 4000 in
/-- **C5**.  For positive `files_per_page` and a 1-based `current_page`, the
recomputed `total_pages_available` is `max 1 ⌈count / files_per_page⌉` and
the recomputed `current_page` lies in `[1, total_pages_available]`; on 250
records at page size 100 that gives 3 pages, and a requested page 5 is
clamped to 3. -/
theorem C5_total_pages_and_clamp (st : AppState)
    (hpp : 0 < st.files_per_page) (hcp : 1 ≤ st.current_page) :
    ((recalculate_pagination st).total_pages_available
        = max 1 (st.all_loaded_files.length ⌈/⌉ st.files_per_page) ∧
      1 ≤ (recalculate_pagination st).current_page ∧
      (recalculate_pagination st).current_page ≤ (recalculate_pagination st).total_pages_available) ∧
    ((recalculate_pagination sample250).total_pages_available = 3 ∧
      (recalculate_pagination sample250).current_page = 3) := by
  refine ⟨⟨?_, ?_, ?_⟩, ?_, ?_⟩
  · simp [recalculate_pagination, Nat.ceilDiv_eq_add_pred_div]
  · simp only [recalculate_pagination]
    split
    · exact le_max_left _ _
    · exact hcp
  · simp only [recalculate_pagination]
    split
    · exact le_refl _
    · omega
  · decide
  · decide

/-- **C5** witness: the theorem applied to the concrete 250-record state. -/
theorem C5_witness :
    (0 < sample250.files_per_page ∧ 1 ≤ sample250.current_page) ∧
      (((recalculate_pagination sample250).total_pages_available
          = max 1 (sample250.all_loaded_files.length ⌈/⌉ sample250.files_per_page) ∧
        1 ≤ (recalculate_pagination sample250).current_page ∧
        (recalculate_pagination sample250).current_page
          ≤ (recalculate_pagination sample250).total_pages_available) ∧
      ((recalculate_pagination sample250).total_pages_available = 3 ∧
        (recalculate_pagination sample250).current_page = 3)) :=
  ⟨⟨by decide, by decide⟩, C5_total_pages_and_clamp sample250 (by decide) (by decide)⟩

/-! ## Search filter (src/ui/file_list_widget.py) -/

/-- Does the needle start the haystack? -/
def startsWithL : List Char → List Char → Bool
  | [], _ => true
  | _ :: _, [] => false
  | c :: cs, d :: ds => c == d && startsWithL cs ds

/-- Does the needle occur anywhere in the haystack? -/
def occursIn : List Char → List Char → Bool
  | n, [] => n.isEmpty
  | n, hay@(_ :: rest) => startsWithL n hay || occursIn n rest

/-- The match test of `FileListWidget.filter_files`: a case-insensitive
search for the `re.escape`d (hence literal) query inside the key. -/
def containsCI (key q : String) : Bool :=
  occursIn (q.data.map Char.toLower) (key.data.map Char.toLower)

/-- `FileListWidget.filter_files` (src/ui/file_list_widget.py, lines
654-678): an empty (falsy) `search_query` returns the list unchanged,
otherwise the records whose key matches are kept in order. -/
def filter_files (search_query : String) (files : List FileInfo) : List FileInfo :=
  if search_query = "" then files
  else files.filter (fun f => containsCI f.key search_query)

/-- The empty query matches every key. -/
theorem occursIn_nil (hay : List Char) : occursIn [] hay = true := by
  cases hay <;> simp [occursIn, startsWithL, List.isEmpty]

/-- The empty query matches every key (string form). -/
theorem containsCI_empty (key : String) : containsCI key "" = true := by
  have h : ("" : String).data = [] := rfl
  simp [containsCI, h, occursIn_nil]

/-- The three-record list of the filter round-trip example. -/
def sampleRecs : List FileInfo :=
  [sampleFile "a/img1.png", sampleFile "b/doc.txt", sampleFile "img2.jpg"]

/-- **C6**.  Filtering keeps exactly the records whose key contains the
query case-insensitively (and literally); the empty query is the identity;
on the example records, the query "img" (or "IMG") keeps exactly the two
keys containing "img", and clearing the query restores the original list. -/
theorem C6_filter_characterization :
    (∀ files, filter_files "" files = files) ∧
    (∀ q files f, f ∈ filter_files q files ↔ f ∈ files ∧ containsCI f.key q = true) ∧
    (filter_files "img" sampleRecs).map FileInfo.key = ["a/img1.png", "img2.jpg"] ∧
    (filter_files "IMG" sampleRecs).map FileInfo.key = ["a/img1.png", "img2.jpg"] ∧
    filter_files "" sampleRecs = sampleRecs := by
  refine ⟨fun files => by simp [filter_files], ?_, by decide, by decide, by simp [filter_files]⟩
  intro q files f
  by_cases hq : q = ""
  · subst hq
    simp [filter_files, containsCI_empty]
  · simp [filter_files, hq, List.mem_filter]

/-! ## Load-more visibility (src/s3_browser_app.py) -/

/-- In a list of naturals all bounded by `c`, the sum reaches `length * c`
exactly when every element equals `c`. -/
theorem sum_eq_cap_iff (c : Nat) :
    ∀ l : List Nat, (∀ x ∈ l, x ≤ c) → (l.length * c ≤ l.sum ↔ ∀ x ∈ l, x = c)
  | [], _ => by simp
  | x :: l, h => by
    have hx : x ≤ c := h x (by simp)
    have hbound : l.sum ≤ l.length * c := by
      have := List.sum_le_card_nsmul l c (fun y hy => h y (by simp [hy]))
      simpa [smul_eq_mul] using this
    have ih := sum_eq_cap_iff c l (fun y hy => h y (by simp [hy]))
    simp only [List.length_cons, List.sum_cons, List.mem_cons, Nat.succ_mul]
    constructor
    · intro hge
      have hxc : x = c := by omega
      have hl : l.length * c ≤ l.sum := by omega
      intro y hy
      rcases hy with rfl | hy
      · exact hxc
      · exact ih.mp hl y hy
    · intro hall
      have hxc : x = c := hall x (Or.inl rfl)
      have hl : l.length * c ≤ l.sum := ih.mpr (fun y hy => hall y (Or.inr hy))
      omega

/-- **C8**.  In a state whose accumulator holds exactly the records of the
tracked store pages, each of capacity 1000, the "Load More" affordance is
visible precisely when the number of tracked pages is a positive multiple
of 10, every tracked page was full, and no load-more run is in flight. -/
theorem C8_load_more_visibility (st : AppState)
    (hsum : st.all_loaded_files.length = (st.pages_from_s3.map PageEntry.files_count).sum)
    (hcap : ∀ e ∈ st.pages_from_s3, e.files_count ≤ 1000) :
    (load_more_visible st = true ↔
      (0 < st.pages_from_s3.length ∧ st.pages_from_s3.length % 10 = 0 ∧
       (∀ e ∈ st.pages_from_s3, e.files_count = 1000) ∧ st.is_loading_more = false)) := by
  have hcap' : ∀ x ∈ st.pages_from_s3.map PageEntry.files_count, x ≤ 1000 := by
    intro x hx
    obtain ⟨e, he, rfl⟩ := List.mem_map.mp hx
    exact hcap e he
  have hiff := sum_eq_cap_iff 1000 (st.pages_from_s3.map PageEntry.files_count) hcap'
  simp only [List.length_map] at hiff
  simp only [load_more_visible, should_show_load_more, Bool.and_eq_true,
    decide_eq_true_eq, beq_iff_eq, Bool.not_eq_true', hsum]
  constructor
  · rintro ⟨⟨⟨h10, hmod⟩, hfull⟩, hload⟩
    refine ⟨by omega, hmod, ?_, hload⟩
    intro e he
    exact hiff.mp hfull e.files_count (List.mem_map.mpr ⟨e, he, rfl⟩)
  · rintro ⟨hpos, hmod, hfull, hload⟩
    refine ⟨⟨⟨by omega, hmod⟩, ?_⟩, hload⟩
    refine hiff.mpr ?_
    intro x hx
    obtain ⟨e, he, rfl⟩ := List.mem_map.mp hx
    exact hfull e he

/-- Ten full tracked pages and their 10000 accumulated records. -/
def sampleLoadedState : AppState :=
  ⟨List.replicate 10000 (sampleFile "x"), 1, 100, 100,
   [⟨1, 1000⟩, ⟨2, 1000⟩, ⟨3, 1000⟩, ⟨4, 1000⟩, ⟨5, 1000⟩,
    ⟨6, 1000⟩, ⟨7, 1000⟩, ⟨8, 1000⟩, ⟨9, 1000⟩, ⟨10, 1000⟩], false⟩

/-- **C8** witness: the equivalence applied to the concrete full-pages
state, concluding that the affordance is visible. -/
theorem C8_witness :
    (sampleLoadedState.all_loaded_files.length
        = (sampleLoadedState.pages_from_s3.map PageEntry.files_count).sum ∧
      (∀ e ∈ sampleLoadedState.pages_from_s3, e.files_count ≤ 1000)) ∧
    load_more_visible sampleLoadedState = true := by
  have h1 : sampleLoadedState.all_loaded_files.length
      = (sampleLoadedState.pages_from_s3.map PageEntry.files_count).sum := by
    show (List.replicate 10000 (sampleFile "x")).length = _
    rw [List.length_replicate]
    decide
  have h2 : ∀ e ∈ sampleLoadedState.pages_from_s3, e.files_count ≤ 1000 := by decide
  refine ⟨⟨h1, h2⟩, ?_⟩
  refine (C8_load_more_visibility sampleLoadedState h1 h2).mpr ?_
  refine ⟨by decide, by decide, by decide, by decide⟩

/-- The returned result dict does not depend on the page callback or its
state, only on the paginator behavior and `max_pages`. -/
theorem result_cb_irrel {σ σ' : Type} (cb : σ → PageInfo → σ) (cb' : σ' → PageInfo → σ')
    (mp : Nat) :
    ∀ (store : List (List FileInfo)) (err : Option String) (pc tf : Nat) (s : σ) (s' : σ'),
      (list_files_progressive cb mp store err pc tf s).2 =
        (list_files_progressive cb' mp store err pc tf s').2 := by
  intro store
  induction store with
  | nil => intro err pc tf s s'; cases err <;> rfl
  | cons page rest ih =>
    intro err pc tf s s'
    by_cases hcut : pc + 1 ≥ mp
    · simp [list_files_progressive, hcut]
    · simp only [list_files_progressive, if_neg hcut]
      exact ih err (pc + 1) (tf + page.length) _ _

/-- **C7**.  After a superseding load-more run completes, the accumulator
holds exactly the new run's records: its count equals the run's
`total_files_found`, and (as soon as the old accumulator was non-empty) it
differs from the sum of the old and new counts. -/
theorem C7_replace_semantics (st : AppState) (store : List (List FileInfo)) (mp : Nat)
    (hold : st.all_loaded_files ≠ []) :
    (on_additional_files_loaded st (runAllFiles store mp)).all_loaded_files.length
        = (listRes store mp).total_files_found ∧
    (on_additional_files_loaded st (runAllFiles store mp)).all_loaded_files.length
        ≠ st.all_loaded_files.length + (listRes store mp).total_files_found := by
  obtain ⟨r, hr⟩ := collect_none_ok store mp 0 0 []
  have hr' : (list_files_progressive collectFilesCb mp store none 0 0 ([] : List FileInfo)).2
      = Except.ok r := by
    rw [result_cb_irrel collectFilesCb collectCb mp store none 0 0 [] []]
    exact hr
  have hlen := runAllFiles_length store mp 0 0 [] r hr'
  have hres : listRes store mp = r := by simp [listRes, hr]
  have hfiles : (on_additional_files_loaded st (runAllFiles store mp)).all_loaded_files
      = runAllFiles store mp := by
    simp [on_additional_files_loaded, recalculate_pagination]
  have hne : 0 < st.all_loaded_files.length := List.length_pos.mpr hold
  constructor
  · rw [hfiles, hres]
    simpa [runAllFiles] using hlen
  · rw [hfiles, hres]
    have : (runAllFiles store mp).length = r.total_files_found := by
      simpa [runAllFiles] using hlen
    omega

/-- The old state and superseding store of the C7 witness. -/
def c7State : AppState := ⟨[sampleFile "old"], 1, 1, 100, [], false⟩

/-- Superseding run store: two pages, three records. -/
def c7Store : List (List FileInfo) := [[sampleFile "n1", sampleFile "n2"], [sampleFile "n3"]]

/-- **C7** witness: the replacement semantics at a concrete non-empty old
accumulator and a concrete superseding run. -/
theorem C7_witness :
    c7State.all_loaded_files ≠ [] ∧
    ((on_additional_files_loaded c7State (runAllFiles c7Store 10)).all_loaded_files.length
        = (listRes c7Store 10).total_files_found ∧
      (on_additional_files_loaded c7State (runAllFiles c7Store 10)).all_loaded_files.length
        ≠ c7State.all_loaded_files.length + (listRes c7Store 10).total_files_found) :=
  ⟨by decide, C7_replace_semantics c7State c7Store 10 (by decide)⟩

/-! ## The worker thread `S3Worker.run` (src/backend/workers.py) -/

/-- The Qt signals `S3Worker` emits during a listing run. -/
inductive Ev where
  | progress (msg : String)
  | page (p : PageInfo)
  | filesLoaded (files : List FileInfo)
  | retryAttempt (attempt maxAttempts : Nat) (err : String)
  | maxRetriesExceeded (total : Nat) (err : String)
  deriving Repr, DecidableEq

/-- One observable action of the worker thread: a read of `_stop_requested`
(with its index in the thread's sequence of reads, and the value read), an
`all_files.extend`, a signal emission, one `msleep(100)` tick of the backoff
wait, or the start of one connection attempt (the creation of the S3 client
and the enumeration it performs). -/
inductive Act where
  | check (idx : Nat) (value : Bool)
  | append (files : List FileInfo)
  | emit (e : Ev)
  | sleepTick
  | attemptStart (n : Nat)
  deriving Repr, DecidableEq

/-- The signals among a trace's actions, in order. -/
def events (t : List Act) : List Ev :=
  t.filterMap fun a => match a with | Act.emit e => some e | _ => none

/-- The progress message emitted per loaded page. -/
def pageMsg (p : PageInfo) : String :=
  "Loaded page " ++ toString p.page_number ++ " (" ++ toString p.total_files_so_far
    ++ " files total)"

/-- State threaded through the `on_page_loaded` closure of `S3Worker.run`:
the index of the next `_stop_requested` read, the accumulated `all_files`,
and the trace of actions performed so far in this attempt. -/
structure WState where
  ci : Nat
  all_files : List FileInfo
  trace : List Act
  deriving Repr, DecidableEq

/-- The closure `on_page_loaded` in `S3Worker.run` (lines 70-82): read
`_stop_requested` and return silently when set; otherwise extend
`all_files`, emit `page_loaded`, emit the progress message. -/
def worker_on_page_loaded (cancel : Nat → Bool) (s : WState) (p : PageInfo) : WState :=
  if cancel s.ci then
    ⟨s.ci + 1, s.all_files, s.trace ++ [Act.check s.ci true]⟩
  else
    ⟨s.ci + 1, s.all_files ++ p.files,
      s.trace ++ [Act.check s.ci false, Act.append p.files, Act.emit (Ev.page p),
        Act.emit (Ev.progress (pageMsg p))]⟩

/-- The backoff wait (lines 111-115): `for i in range(20)`, reading the stop
flag before each `msleep(100)`.  Returns the trace, the next read index, and
whether the wait was aborted by a stop request. -/
def backoffWait (cancel : Nat → Bool) : Nat → Nat → List Act × Nat × Bool
  | 0, ci => ([], ci, false)
  | k + 1, ci =>
    if cancel ci then ([Act.check ci true], ci + 1, true)
    else
      let r := backoffWait cancel k (ci + 1)
      (Act.check ci false :: Act.sleepTick :: r.1, r.2.1, r.2.2)

/-- `S3Worker.run` (lines 37-122) from a given attempt count and read
index.  `fuel` is `max_retries - attempt`, how many iterations the
`while attempt < self.max_retries` condition still permits; the condition
short-circuits, so the flag is read only when `attempt < max_retries`.
`behavior a` gives, for attempt `a`, the pages the paginator yields and the
exception (already mapped to its message by `list_files_progressive`) it
raises after them, if any. -/
def S3Worker_runAux (cancel : Nat → Bool)
    (behavior : Nat → List (List FileInfo) × Option String)
    (max_retries max_pages : Nat) : Nat → Nat → Nat → List Act
  | 0, _, _ => []
  | fuel + 1, attempt, ci =>
    if cancel ci then [Act.check ci true]
    else
      let a := attempt + 1
      let connectMsg := if a = 1 then "Connecting to S3..."
        else "Retrying connection... (attempt " ++ toString a ++ "/"
          ++ toString max_retries ++ ")"
      let run := list_files_progressive (worker_on_page_loaded cancel) max_pages
        (behavior a).1 (behavior a).2 0 0 ⟨ci + 1, [], []⟩
      let pre := [Act.check ci false, Act.emit (Ev.progress connectMsg),
        Act.emit (Ev.progress "Listing bucket contents..."), Act.attemptStart a]
      match run.2 with
      | Except.ok res =>
        if cancel run.1.ci then pre ++ run.1.trace ++ [Act.check run.1.ci true]
        else pre ++ run.1.trace ++ [Act.check run.1.ci false,
          Act.emit (Ev.progress ("Loaded " ++ toString res.total_files_found ++ " files ("
            ++ toString res.pages_processed ++ " pages)")),
          Act.emit (Ev.filesLoaded run.1.all_files)]
      | Except.error e =>
        if a < max_retries then
          let bw := backoffWait cancel 20 run.1.ci
          if bw.2.2 then
            pre ++ run.1.trace ++ [Act.emit (Ev.retryAttempt a max_retries e)] ++ bw.1
          else
            pre ++ run.1.trace ++ [Act.emit (Ev.retryAttempt a max_retries e)] ++ bw.1 ++
              S3Worker_runAux cancel behavior max_retries max_pages fuel a bw.2.1
        else pre ++ run.1.trace ++ [Act.emit (Ev.maxRetriesExceeded max_retries e)]

/-- A full `S3Worker.run`: `attempt = 0`, first flag read has index 0. -/
def S3Worker_run (cancel : Nat → Bool)
    (behavior : Nat → List (List FileInfo) × Option String)
    (max_retries max_pages : Nat) : List Act :=
  S3Worker_runAux cancel behavior max_retries max_pages max_retries 0 0

/-- A run during which no cancellation is ever requested. -/
def cFalse : Nat → Bool := fun _ => false

/-- Error mapping of `list_files_progressive`'s except clauses
(src/backend/s3_operations.py, lines 130-155): the exception kinds the boto3
call can raise, and the message each is converted to.  The catch-all clause
re-raises, so an unmapped exception keeps its original message. -/
inductive RawErr where
  | noCredentials (msg : String)
  | endpointConnection (msg : String)
  | clientError (code msg : String)
  | otherExc (msg : String)
  deriving Repr, DecidableEq

/-- The message carried by the exception `S3Worker.run` observes
(`last_error = str(e)`). -/
def mapError (bucket_name : String) : RawErr → String
  | RawErr.noCredentials _ =>
      "Invalid credentials. Please check your access key and secret key."
  | RawErr.endpointConnection _ =>
      "Cannot connect to the endpoint. Please check the URL."
  | RawErr.clientError code msg =>
      if code = "NoSuchBucket" then "Bucket \x27" ++ bucket_name ++ "\x27 does not exist."
      else if code = "AccessDenied" then
        "Access denied. Please check your credentials and permissions."
      else "AWS Error: " ++ msg
  | RawErr.otherExc msg => msg

section WorkerLemmas

/-- Simulation: a map between callback states commuting with the callbacks
commutes with the whole run. -/
theorem lfp_sim {σ σ' : Type} (cb : σ → PageInfo → σ) (cb' : σ' → PageInfo → σ')
    (f : σ → σ') (hf : ∀ s p, f (cb s p) = cb' (f s) p) (mp : Nat) :
    ∀ (store : List (List FileInfo)) (err : Option String) (pc tf : Nat) (s : σ),
      f (list_files_progressive cb mp store err pc tf s).1 =
        (list_files_progressive cb' mp store err pc tf (f s)).1 := by
  intro store
  induction store with
  | nil => intro err pc tf s; cases err <;> rfl
  | cons page rest ih =>
    intro err pc tf s
    by_cases hemp : page.isEmpty
    · by_cases hcut : pc + 1 ≥ mp
      · simp [list_files_progressive, hemp, hcut]
      · simp only [list_files_progressive, if_pos hemp, if_neg hcut]
        exact ih err (pc + 1) (tf + page.length) s
    · by_cases hcut : pc + 1 ≥ mp
      · simp only [list_files_progressive, if_neg hemp, if_pos hcut]
        exact hf s _
      · simp only [list_files_progressive, if_neg hemp, if_neg hcut]
        rw [← hf s _]
        exact ih err (pc + 1) (tf + page.length) _

/-- `events` distributes over concatenation. -/
theorem events_append (a b : List Act) : events (a ++ b) = events a ++ events b :=
  List.filterMap_append a b _

/-- The two signals emitted per page by `on_page_loaded`. -/
def pageSignals (p : PageInfo) : List Ev := [Ev.page p, Ev.progress (pageMsg p)]

/-- Collect the per-page signals. -/
def signalsCb (evs : List Ev) (p : PageInfo) : List Ev := evs ++ pageSignals p

/-- Collect only the `page_loaded` signals. -/
def pageOnlyCb (evs : List Ev) (p : PageInfo) : List Ev := evs ++ [Ev.page p]

/-- Every signal except `progress_update`. -/
def nonProgress : Ev → Bool
  | Ev.progress _ => false
  | _ => true

/-- With no cancellation, the signals of the listing trace are the per-page
signal pairs. -/
theorem worker_events_sim (mp : Nat) (store : List (List FileInfo)) (err : Option String)
    (pc tf : Nat) (s : WState) :
    events (list_files_progressive (worker_on_page_loaded cFalse) mp store err pc tf s).1.trace
      = (list_files_progressive signalsCb mp store err pc tf (events s.trace)).1 :=
  lfp_sim _ _ (fun s => events s.trace)
    (fun s p => by
      simp [worker_on_page_loaded, cFalse, signalsCb, pageSignals, events_append, events])
    mp store err pc tf s

/-- Dropping the progress signals leaves one `page_loaded` per page. -/
theorem filter_signals_sim (mp : Nat) (store : List (List FileInfo)) (err : Option String)
    (pc tf : Nat) (evs : List Ev) :
    ((list_files_progressive signalsCb mp store err pc tf evs).1).filter nonProgress
      = (list_files_progressive pageOnlyCb mp store err pc tf (evs.filter nonProgress)).1 :=
  lfp_sim _ _ (List.filter nonProgress)
    (fun evs p => by simp [signalsCb, pageOnlyCb, pageSignals, nonProgress])
    mp store err pc tf evs

/-- The `page_loaded` signals are the pure run's page events. -/
theorem map_page_sim (mp : Nat) (store : List (List FileInfo)) (err : Option String)
    (pc tf : Nat) (ps : List PageInfo) :
    ((list_files_progressive collectCb mp store err pc tf ps).1).map Ev.page
      = (list_files_progressive pageOnlyCb mp store err pc tf (ps.map Ev.page)).1 :=
  lfp_sim _ _ (List.map Ev.page)
    (fun ps p => by simp [collectCb, pageOnlyCb]) mp store err pc tf ps

/-- With no cancellation, `all_files` accumulates every emitted page's
files. -/
theorem all_files_sim (mp : Nat) (store : List (List FileInfo)) (err : Option String)
    (pc tf : Nat) (s : WState) :
    (list_files_progressive (worker_on_page_loaded cFalse) mp store err pc tf s).1.all_files
      = (list_files_progressive collectFilesCb mp store err pc tf s.all_files).1 :=
  lfp_sim _ _ (fun s => s.all_files)
    (fun s p => by simp [worker_on_page_loaded, cFalse, collectFilesCb])
    mp store err pc tf s

/-- Composite: the non-progress signals of an uncancelled listing attempt
are exactly the pure run's page events. -/
theorem wrun_filter (mp : Nat) (store : List (List FileInfo)) (err : Option String) (ci : Nat) :
    (events (list_files_progressive (worker_on_page_loaded cFalse) mp store err 0 0
        ⟨ci, [], []⟩).1.trace).filter nonProgress
      = ((list_files_progressive collectCb mp store err 0 0 []).1).map Ev.page := by
  rw [worker_events_sim, map_page_sim]
  have h : events (⟨ci, [], []⟩ : WState).trace = [] := rfl
  rw [h, filter_signals_sim]
  rfl

/-- The backoff wait without cancellation: never aborted, no signals, and
it advances the read index by 20. -/
theorem backoffWait_cFalse (k : Nat) : ∀ ci,
    (backoffWait cFalse k ci).2.2 = false ∧ events (backoffWait cFalse k ci).1 = [] ∧
      (backoffWait cFalse k ci).2.1 = ci + k := by
  induction k with
  | zero => intro ci; exact ⟨rfl, rfl, rfl⟩
  | succ k ih =>
    intro ci
    obtain ⟨h1, h2, h3⟩ := ih (ci + 1)
    refine ⟨?_, ?_, ?_⟩
    · simpa [backoffWait, cFalse] using h1
    · simp [backoffWait, cFalse, events, h2]
      simpa [events] using h2
    · simp [backoffWait, cFalse, h3]
      omega

/-- The actions of attempt `a` before its gateway enumeration: the loop
condition's flag read and the two progress signals. -/
def preActs (a mr ci : Nat) : List Act :=
  [Act.check ci false,
   Act.emit (Ev.progress (if a = 1 then "Connecting to S3..."
     else "Retrying connection... (attempt " ++ toString a ++ "/" ++ toString mr ++ ")")),
   Act.emit (Ev.progress "Listing bucket contents..."),
   Act.attemptStart a]

/-- Unfolding one failing, non-final attempt of the uncancelled worker
loop: the pre-actions, the retry signal, the full backoff wait, then the
next iteration. -/
theorem runAux_step_fail (behavior : Nat → List (List FileInfo) × Option String)
    (mr mp fuel attempt ci : Nat) (e : String) (hfuel : 0 < fuel)
    (hb : behavior (attempt + 1) = ([], some e)) (hlt : attempt + 1 < mr) :
    S3Worker_runAux cFalse behavior mr mp fuel attempt ci
      = preActs (attempt + 1) mr ci
          ++ [Act.emit (Ev.retryAttempt (attempt + 1) mr e)]
          ++ (backoffWait cFalse 20 (ci + 1)).1
          ++ S3Worker_runAux cFalse behavior mr mp (fuel - 1) (attempt + 1) (ci + 1 + 20) := by
  obtain ⟨k, rfl⟩ : ∃ k, fuel = k + 1 := ⟨fuel - 1, by omega⟩
  obtain ⟨hbw1, _, hbw3⟩ := backoffWait_cFalse 20 (ci + 1)
  simp only [S3Worker_runAux, cFalse, Bool.false_eq_true, ite_false, if_neg, hb,
    list_files_progressive, preActs, hbw1, if_pos hlt, hbw3, Nat.add_sub_cancel]
  simp

/-- Unfolding the final failing attempt: the pre-actions then the
`max_retries_exceeded` signal. -/
theorem runAux_step_last (behavior : Nat → List (List FileInfo) × Option String)
    (mr mp fuel attempt ci : Nat) (e : String) (hfuel : 0 < fuel)
    (hb : behavior (attempt + 1) = ([], some e)) (hge : ¬(attempt + 1 < mr)) :
    S3Worker_runAux cFalse behavior mr mp fuel attempt ci
      = preActs (attempt + 1) mr ci ++ [Act.emit (Ev.maxRetriesExceeded mr e)] := by
  obtain ⟨k, rfl⟩ : ∃ k, fuel = k + 1 := ⟨fuel - 1, by omega⟩
  simp only [S3Worker_runAux, cFalse, Bool.false_eq_true, ite_false, if_neg, hb,
    list_files_progressive, preActs, if_neg hge]
  simp

/-- Unfolding a successful attempt: the pre-actions, the listing trace, the
post-listing flag read, the summary progress signal and `files_loaded`. -/
theorem runAux_step_ok (behavior : Nat → List (List FileInfo) × Option String)
    (mr mp fuel attempt ci : Nat) (store : List (List FileInfo)) (res : ListResult)
    (hfuel : 0 < fuel) (hb : behavior (attempt + 1) = (store, none))
    (hres : (list_files_progressive (worker_on_page_loaded cFalse) mp store none 0 0
        ⟨ci + 1, [], []⟩).2 = Except.ok res) :
    S3Worker_runAux cFalse behavior mr mp fuel attempt ci
      = preActs (attempt + 1) mr ci
          ++ (list_files_progressive (worker_on_page_loaded cFalse) mp store none 0 0
              ⟨ci + 1, [], []⟩).1.trace
          ++ [Act.check (list_files_progressive (worker_on_page_loaded cFalse) mp store none 0 0
              ⟨ci + 1, [], []⟩).1.ci false,
            Act.emit (Ev.progress ("Loaded " ++ toString res.total_files_found ++ " files ("
              ++ toString res.pages_processed ++ " pages)")),
            Act.emit (Ev.filesLoaded
              (list_files_progressive (worker_on_page_loaded cFalse) mp store none 0 0
                ⟨ci + 1, [], []⟩).1.all_files)] := by
  obtain ⟨k, rfl⟩ : ∃ k, fuel = k + 1 := ⟨fuel - 1, by omega⟩
  simp only [S3Worker_runAux, cFalse, Bool.false_eq_true, ite_false, if_neg, hb, hres, preActs]

end WorkerLemmas

/-- Gateway behavior that fails on attempts 1 and 2 (raising before any
page) and succeeds, yielding `store`, from attempt 3 on. -/
def c2Behavior (e1 e2 : String) (store : List (List FileInfo)) :
    Nat → List (List FileInfo) × Option String :=
  fun a => if a = 1 then ([], some e1) else if a = 2 then ([], some e2) else (store, none)

/-- Gateway behavior that fails on every attempt. -/
def failBehavior (msgs : Nat → String) : Nat → List (List FileInfo) × Option String :=
  fun a => ([], some (msgs a))

/-- **C2**.  With `max_retries = 3` and no cancellation: a gateway failing
twice then succeeding makes the worker emit (ignoring progress messages)
exactly two `retry_attempt` signals, then the `page_loaded` signals of the
successful run, then `files_loaded`, and no `max_retries_exceeded`; a
gateway failing on every attempt makes it emit exactly two `retry_attempt`
signals followed by exactly one `max_retries_exceeded` with total-attempts
3. -/
theorem C2_retry_budget (e1 e2 : String) (store : List (List FileInfo)) (mp : Nat)
    (msgs : Nat → String) :
    ((events (S3Worker_run cFalse (c2Behavior e1 e2 store) 3 mp)).filter nonProgress
      = [Ev.retryAttempt 1 3 e1, Ev.retryAttempt 2 3 e2]
          ++ (listEvents store mp).map Ev.page ++ [Ev.filesLoaded (runAllFiles store mp)]) ∧
    ((events (S3Worker_run cFalse (failBehavior msgs) 3 mp)).filter nonProgress
      = [Ev.retryAttempt 1 3 (msgs 1), Ev.retryAttempt 2 3 (msgs 2),
         Ev.maxRetriesExceeded 3 (msgs 3)]) := by
  constructor
  · obtain ⟨r, hr⟩ := collect_none_ok store mp 0 0 []
    have hres : (list_files_progressive (worker_on_page_loaded cFalse) mp store none 0 0
        ⟨0 + 1 + 20 + 1 + 20 + 1, [], []⟩).2 = Except.ok r := by
      rw [result_cb_irrel (worker_on_page_loaded cFalse) collectCb mp store none 0 0 _ []]
      exact hr
    have h1 : c2Behavior e1 e2 store (0 + 1) = ([], some e1) := rfl
    have h2 : c2Behavior e1 e2 store (0 + 1 + 1) = ([], some e2) := rfl
    have h3 : c2Behavior e1 e2 store (0 + 1 + 1 + 1) = (store, none) := rfl
    rw [S3Worker_run,
      runAux_step_fail _ 3 mp 3 0 0 e1 (by omega) h1 (by omega),
      runAux_step_fail _ 3 mp (3 - 1) (0 + 1) (0 + 1 + 20) e2 (by omega) h2 (by omega),
      runAux_step_ok _ 3 mp (3 - 1 - 1) (0 + 1 + 1) (0 + 1 + 20 + 1 + 20) store r
        (by omega) h3 hres]
    obtain ⟨_, hbw1, _⟩ := backoffWait_cFalse 20 (0 + 1)
    obtain ⟨_, hbw2, _⟩ := backoffWait_cFalse 20 (0 + 1 + 20 + 1)
    rw [all_files_sim]
    simp only [events_append, List.filter_append, hbw1, hbw2]
    rw [wrun_filter]
    simp [preActs, events, nonProgress, listEvents, runAllFiles]
  · have h1 : failBehavior msgs (0 + 1) = ([], some (msgs (0 + 1))) := rfl
    have h2 : failBehavior msgs (0 + 1 + 1) = ([], some (msgs (0 + 1 + 1))) := rfl
    have h3 : failBehavior msgs (0 + 1 + 1 + 1) = ([], some (msgs (0 + 1 + 1 + 1))) := rfl
    rw [S3Worker_run,
      runAux_step_fail _ 3 mp 3 0 0 _ (by omega) h1 (by omega),
      runAux_step_fail _ 3 mp (3 - 1) (0 + 1) (0 + 1 + 20) _ (by omega) h2 (by omega),
      runAux_step_last _ 3 mp (3 - 1 - 1) (0 + 1 + 1) (0 + 1 + 20 + 1 + 20) _
        (by omega) h3 (by omega)]
    obtain ⟨_, hbw1, _⟩ := backoffWait_cFalse 20 (0 + 1)
    obtain ⟨_, hbw2, _⟩ := backoffWait_cFalse 20 (0 + 1 + 20 + 1)
    simp only [events_append, List.filter_append, hbw1, hbw2]
    simp [preActs, events, nonProgress]

/-- The attempt numbers started by a run, in order. -/
def attemptsOf (t : List Act) : List Nat :=
  t.filterMap fun a => match a with | Act.attemptStart n => some n | _ => none

/-- `attemptsOf` distributes over concatenation. -/
theorem attemptsOf_append (a b : List Act) :
    attemptsOf (a ++ b) = attemptsOf a ++ attemptsOf b :=
  List.filterMap_append a b _

/-- The backoff wait starts no attempt. -/
theorem attemptsOf_backoff (k : Nat) : ∀ ci, attemptsOf (backoffWait cFalse k ci).1 = [] := by
  induction k with
  | zero => intro ci; rfl
  | succ k ih =>
    intro ci
    simp only [backoffWait, cFalse, Bool.false_eq_true, ite_false, if_neg]
    simpa [attemptsOf] using ih (ci + 1)

/-- An always-failing run starts exactly the attempts
`attempt+1, ..., max_retries`: every failure consumes one attempt of the
budget, whatever the messages. -/
theorem attemptsOf_failBehavior (msgs : Nat → String) (mr mp : Nat) :
    ∀ fuel attempt ci, attempt + fuel = mr →
      attemptsOf (S3Worker_runAux cFalse (failBehavior msgs) mr mp fuel attempt ci)
        = List.range' (attempt + 1) fuel := by
  intro fuel
  induction fuel with
  | zero => intro attempt ci _; rfl
  | succ k ih =>
    intro attempt ci hinv
    by_cases hlt : attempt + 1 < mr
    · rw [runAux_step_fail _ mr mp (k + 1) attempt ci _ (by omega) rfl hlt]
      rw [attemptsOf_append, attemptsOf_append, attemptsOf_append, attemptsOf_backoff,
        Nat.add_sub_cancel, ih (attempt + 1) (ci + 1 + 20) (by omega)]
      simp [attemptsOf, preActs, List.range'_succ]
    · rw [runAux_step_last _ mr mp (k + 1) attempt ci _ (by omega) rfl hlt]
      have hk : k = 0 := by omega
      subst hk
      simp [attemptsOf_append, attemptsOf, preActs, List.range'_succ]

/-- The payload-free shape of a signal: which signal it is and its numeric
arguments. -/
def evShape : Ev → Nat × Nat × Nat
  | Ev.progress _ => (0, 0, 0)
  | Ev.page p => (1, p.page_number, p.files_in_page)
  | Ev.filesLoaded fs => (2, fs.length, 0)
  | Ev.retryAttempt a m _ => (3, a, m)
  | Ev.maxRetriesExceeded t _ => (4, t, 0)

/-- Two always-failing runs differing only in their error messages emit
signal sequences of identical shape: the retry decision never looks at the
message (hence not at the error kind). -/
theorem shape_failBehavior (msgs msgs' : Nat → String) (mr mp : Nat) :
    ∀ fuel attempt ci,
      (events (S3Worker_runAux cFalse (failBehavior msgs) mr mp fuel attempt ci)).map evShape
        = (events (S3Worker_runAux cFalse (failBehavior msgs') mr mp fuel attempt ci)).map evShape := by
  intro fuel
  induction fuel with
  | zero => intro attempt ci; rfl
  | succ k ih =>
    intro attempt ci
    by_cases hlt : attempt + 1 < mr
    · rw [runAux_step_fail _ mr mp (k + 1) attempt ci _ (by omega) rfl hlt,
        runAux_step_fail (failBehavior msgs') mr mp (k + 1) attempt ci _ (by omega) rfl hlt]
      obtain ⟨_, hbw, _⟩ := backoffWait_cFalse 20 (ci + 1)
      simp only [events_append, List.map_append, hbw, Nat.add_sub_cancel]
      rw [ih (attempt + 1) (ci + 1 + 20)]
      simp [events, evShape, preActs]
    · rw [runAux_step_last _ mr mp (k + 1) attempt ci _ (by omega) rfl hlt,
        runAux_step_last (failBehavior msgs') mr mp (k + 1) attempt ci _ (by omega) rfl hlt]
      simp [events_append, events, evShape, preActs]

/-- **C9**.  The retry decision is uniform across error kinds: for any two
assignments of raised error kinds to attempts, the always-failing runs have
signal sequences of identical shape; every failure consumes exactly one
attempt of the budget (an always-failing run starts attempts `1..mr`); and
an unmapped exception (`otherExc`, re-raised by the catch-all clause) is
surfaced carrying its original message. -/
theorem C9_error_kind_uniformity :
    (∀ (r r' : Nat → RawErr) (bucket bucket' : String) (mr mp : Nat),
      (events (S3Worker_run cFalse
          (failBehavior (fun a => mapError bucket (r a))) mr mp)).map evShape
        = (events (S3Worker_run cFalse
            (failBehavior (fun a => mapError bucket' (r' a))) mr mp)).map evShape) ∧
    (∀ (r : Nat → RawErr) (bucket : String) (mr mp : Nat),
      attemptsOf (S3Worker_run cFalse
          (failBehavior (fun a => mapError bucket (r a))) mr mp)
        = List.range' 1 mr) ∧
    (∀ (m bucket : String), mapError bucket (RawErr.otherExc m) = m) :=
  ⟨fun r r' bucket bucket' mr mp =>
    shape_failBehavior (fun a => mapError bucket (r a)) (fun a => mapError bucket' (r' a))
      mr mp mr 0 0,
   fun r bucket mr mp =>
    attemptsOf_failBehavior (fun a => mapError bucket (r a)) mr mp mr 0 0 (by omega),
   fun m bucket => rfl⟩

/-! ## Cooperative cancellation (C4) -/

/-- The flag may be set at any moment and is never cleared during a run:
reads are monotone in time (read index). -/
def MonoCancel (cancel : Nat → Bool) : Prop :=
  ∀ i j, i ≤ j → cancel i = true → cancel j = true

/-- Scanner: every `all_files.extend` and every `msleep` tick immediately
follows a read of the stop flag that came back false.  `prev` is the
preceding action, if any. -/
def guardedActs : Option Act → List Act → Bool
  | _, [] => true
  | prev, a :: rest =>
    (match a with
     | Act.append _ =>
       match prev with | some (Act.check _ false) => true | _ => false
     | Act.sleepTick =>
       match prev with | some (Act.check _ false) => true | _ => false
     | _ => true) && guardedActs (some a) rest

/-- The last action of `a`, or `prev` when `a` is empty. -/
def lastOr (prev : Option Act) (a : List Act) : Option Act :=
  match a.getLast? with | some x => some x | none => prev

/-- Scanner: every `attemptStart` is preceded, since the previous
`attemptStart`, by a flag read that came back false (the loop condition
guards each connection attempt).  The flag argument records whether such a
read has been seen. -/
def attemptsGuarded : Bool → List Act → Bool
  | _, [] => true
  | f, Act.check _ b :: rest => attemptsGuarded (f || !b) rest
  | f, Act.attemptStart _ :: rest => f && attemptsGuarded false rest
  | f, _ :: rest => attemptsGuarded f rest

/-- Actions that may still occur after the flag has been observed set:
further reads of the (still set) flag, and the retry or terminal-failure
signal of the failure already being handled. -/
def allowedAfter : Act → Bool
  | Act.check _ true => true
  | Act.emit (Ev.retryAttempt _ _ _) => true
  | Act.emit (Ev.maxRetriesExceeded _ _) => true
  | _ => false

/-- Scanner: after the first read that observed the flag set, only
`allowedAfter` actions occur — no page, progress or completion signal, no
append, no sleep tick, no new attempt. -/
def quietAfterCancel : List Act → Bool
  | [] => true
  | Act.check _ true :: rest => rest.all allowedAfter
  | _ :: rest => quietAfterCancel rest

/-- Does the trace contain a read that observed the flag set? -/
def hasTrueCheck : List Act → Bool
  | [] => false
  | Act.check _ true :: _ => true
  | _ :: rest => hasTrueCheck rest

/-- The claim as stated: after the first read that observed the flag set,
no page, progress, retry or completion signal is emitted. -/
def silentAfterCancel : List Act → Bool
  | [] => true
  | Act.check _ true :: rest => rest.all fun a =>
      match a with
      | Act.emit (Ev.page _) => false
      | Act.emit (Ev.progress _) => false
      | Act.emit (Ev.retryAttempt _ _ _) => false
      | Act.emit (Ev.filesLoaded _) => false
      | _ => true
  | _ :: rest => silentAfterCancel rest

section CancellationLemmas

/-- `guardedActs` over a concatenation. -/
theorem guardedActs_append (a : List Act) : ∀ (prev : Option Act) (b : List Act),
    guardedActs prev (a ++ b) = (guardedActs prev a && guardedActs (lastOr prev a) b) := by
  induction a with
  | nil => intro prev b; simp [guardedActs, lastOr]
  | cons x a ih =>
    intro prev b
    show guardedActs prev (x :: (a ++ b)) = _
    simp only [guardedActs]
    rw [ih (some x) b]
    have hlast : lastOr prev (x :: a) = lastOr (some x) a := by
      cases a with
      | nil => rfl
      | cons y a =>
        simp only [lastOr, List.getLast?_cons_cons]
        cases h : (y :: a).getLast? with
        | some z => rfl
        | none => exact absurd (List.getLast?_eq_none_iff.mp h) (by simp)
    rw [hlast, Bool.and_assoc]

/-- A head that is neither an append nor a tick makes `guardedActs`
independent of the preceding action. -/
def headOk : List Act → Bool
  | [] => true
  | Act.append _ :: _ => false
  | Act.sleepTick :: _ => false
  | _ :: _ => true

theorem guardedActs_prevIrrel {l : List Act} (h : headOk l = true) (p q : Option Act) :
    guardedActs p l = guardedActs q l := by
  cases l with
  | nil => rfl
  | cons a rest =>
    cases a <;> simp_all [guardedActs, headOk]

/-- The scanner flag after processing a trace. -/
def agFlag : Bool → List Act → Bool
  | f, [] => f
  | f, Act.check _ b :: rest => agFlag (f || !b) rest
  | _, Act.attemptStart _ :: rest => agFlag false rest
  | f, _ :: rest => agFlag f rest

/-- `attemptsGuarded` over a concatenation. -/
theorem attemptsGuarded_append (a : List Act) : ∀ (f : Bool) (b : List Act),
    attemptsGuarded f (a ++ b)
      = (attemptsGuarded f a && attemptsGuarded (agFlag f a) b) := by
  induction a with
  | nil => intro f b; simp [attemptsGuarded, agFlag]
  | cons x a ih =>
    intro f b
    cases x with
    | check i v =>
      show attemptsGuarded (f || !v) (a ++ b)
        = (attemptsGuarded (f || !v) a && attemptsGuarded (agFlag (f || !v) a) b)
      exact ih (f || !v) b
    | attemptStart n =>
      show (f && attemptsGuarded false (a ++ b))
        = ((f && attemptsGuarded false a) && attemptsGuarded (agFlag false a) b)
      rw [ih false b, Bool.and_assoc]
    | append fs =>
      show attemptsGuarded f (a ++ b)
        = (attemptsGuarded f a && attemptsGuarded (agFlag f a) b)
      exact ih f b
    | emit e =>
      show attemptsGuarded f (a ++ b)
        = (attemptsGuarded f a && attemptsGuarded (agFlag f a) b)
      exact ih f b
    | sleepTick =>
      show attemptsGuarded f (a ++ b)
        = (attemptsGuarded f a && attemptsGuarded (agFlag f a) b)
      exact ih f b

/-- Concatenating parts that pass for every flag value passes for every
flag value. -/
theorem attemptsGuarded_all_append {a b : List Act}
    (ha : ∀ f, attemptsGuarded f a = true) (hb : ∀ f, attemptsGuarded f b = true)
    (f : Bool) : attemptsGuarded f (a ++ b) = true := by
  rw [attemptsGuarded_append]
  simp [ha, hb]

/-- Concatenating parts that pass for every preceding action passes for
every preceding action. -/
theorem guardedActs_all_append {a b : List Act}
    (ha : ∀ q, guardedActs q a = true) (hb : ∀ q, guardedActs q b = true)
    (q : Option Act) : guardedActs q (a ++ b) = true := by
  rw [guardedActs_append]
  simp [ha, hb]

/-- A list of allowed actions is quiet. -/
theorem qac_of_all_allowed : ∀ (l : List Act), l.all allowedAfter = true →
    quietAfterCancel l = true := by
  intro l
  induction l with
  | nil => intro _; rfl
  | cons a rest ih =>
    intro h
    rw [List.all_cons, Bool.and_eq_true] at h
    cases a with
    | check i v =>
      cases v
      · exact absurd h.1 (by simp [allowedAfter])
      · exact h.2
    | emit e =>
      cases e with
      | progress m => exact absurd h.1 (by simp [allowedAfter])
      | page p => exact absurd h.1 (by simp [allowedAfter])
      | filesLoaded fs => exact absurd h.1 (by simp [allowedAfter])
      | retryAttempt a m s => exact ih h.2
      | maxRetriesExceeded t s => exact ih h.2
    | append fs => exact absurd h.1 (by simp [allowedAfter])
    | sleepTick => exact absurd h.1 (by simp [allowedAfter])
    | attemptStart n => exact absurd h.1 (by simp [allowedAfter])

/-- `hasTrueCheck` over a concatenation. -/
theorem hasTrueCheck_append : ∀ (a b : List Act),
    hasTrueCheck (a ++ b) = (hasTrueCheck a || hasTrueCheck b)
  | [], _ => rfl
  | x :: a, b => by
    cases x with
    | check i v =>
      cases v
      · exact hasTrueCheck_append a b
      · rfl
    | emit e => exact hasTrueCheck_append a b
    | append fs => exact hasTrueCheck_append a b
    | sleepTick => exact hasTrueCheck_append a b
    | attemptStart n => exact hasTrueCheck_append a b

/-- `quietAfterCancel` over a concatenation: both parts quiet, and the
second all-allowed when the first observed the flag. -/
theorem qac_append : ∀ (a : List Act) {b : List Act}, quietAfterCancel a = true →
    quietAfterCancel b = true →
    (hasTrueCheck a = true → b.all allowedAfter = true) →
    quietAfterCancel (a ++ b) = true := by
  intro a
  induction a with
  | nil => intro b _ hb _; exact hb
  | cons x a ih =>
    intro b ha hb hab
    cases x with
    | check i v =>
      cases v
      · exact ih ha hb hab
      · show (a ++ b).all allowedAfter = true
        rw [List.all_append]
        have h1 : a.all allowedAfter = true := ha
        have h2 : b.all allowedAfter = true := hab rfl
        simp [h1, h2]
    | emit e => exact ih ha hb hab
    | append fs => exact ih ha hb hab
    | sleepTick => exact ih ha hb hab
    | attemptStart n => exact ih ha hb hab

/-- The backoff trace is tick-guarded: each tick follows its flag read. -/
theorem backoff_guarded (cancel : Nat → Bool) (k : Nat) :
    ∀ ci q, guardedActs q (backoffWait cancel k ci).1 = true := by
  induction k with
  | zero => intro ci q; rfl
  | succ k ih =>
    intro ci q
    by_cases hc : cancel ci
    · simp only [backoffWait, if_pos hc]
      rfl
    · simp only [backoffWait, if_neg hc]
      show (guardedActs (some Act.sleepTick) (backoffWait cancel k (ci + 1)).1) = true
      exact ih (ci + 1) _

/-- The backoff trace starts no attempt. -/
theorem backoff_attempts (cancel : Nat → Bool) (k : Nat) :
    ∀ ci f, attemptsGuarded f (backoffWait cancel k ci).1 = true := by
  induction k with
  | zero => intro ci f; rfl
  | succ k ih =>
    intro ci f
    by_cases hc : cancel ci
    · simp only [backoffWait, if_pos hc]
      rfl
    · simp only [backoffWait, if_neg hc]
      exact ih (ci + 1) _

/-- The backoff trace is quiet; when entered with the flag already set it
performs only the aborting read; a clean pass observes no set flag. -/
theorem backoff_qac (cancel : Nat → Bool) (k : Nat) :
    ∀ ci, quietAfterCancel (backoffWait cancel k ci).1 = true ∧
      (cancel ci = true → (backoffWait cancel k ci).1.all allowedAfter = true) ∧
      ((backoffWait cancel k ci).2.2 = false →
        hasTrueCheck (backoffWait cancel k ci).1 = false) := by
  induction k with
  | zero => intro ci; exact ⟨rfl, fun _ => rfl, fun _ => rfl⟩
  | succ k ih =>
    intro ci
    by_cases hc : cancel ci
    · simp only [backoffWait, if_pos hc]
      refine ⟨rfl, fun _ => by simp [allowedAfter], fun h => by simp at h⟩
    · simp only [backoffWait, if_neg hc]
      obtain ⟨ih1, _, ih3⟩ := ih (ci + 1)
      exact ⟨ih1, fun h => absurd h (by simp [hc]), fun h => ih3 h⟩

/-- Entering the backoff wait with the flag set aborts it at once. -/
theorem backoff_stops (cancel : Nat → Bool) (k ci : Nat) (hc : cancel ci = true) :
    (backoffWait cancel (k + 1) ci).2.2 = true := by
  simp [backoffWait, hc]

/-- One `on_page_loaded` call preserves tick/append-guardedness. -/
theorem cb_guarded (cancel : Nat → Bool) (s : WState) (p : PageInfo)
    (hs : ∀ q, guardedActs q s.trace = true) :
    ∀ q, guardedActs q (worker_on_page_loaded cancel s p).trace = true := by
  intro q
  by_cases hc : cancel s.ci
  · simp only [worker_on_page_loaded, if_pos hc]
    refine guardedActs_all_append hs (fun q => ?_) q
    rfl
  · simp only [worker_on_page_loaded, if_neg hc]
    refine guardedActs_all_append hs (fun q => ?_) q
    rfl

/-- One `on_page_loaded` call starts no attempt. -/
theorem cb_attempts (cancel : Nat → Bool) (s : WState) (p : PageInfo)
    (hs : ∀ f, attemptsGuarded f s.trace = true) :
    ∀ f, attemptsGuarded f (worker_on_page_loaded cancel s p).trace = true := by
  intro f
  by_cases hc : cancel s.ci
  · simp only [worker_on_page_loaded, if_pos hc]
    refine attemptsGuarded_all_append hs (fun f => ?_) f
    rfl
  · simp only [worker_on_page_loaded, if_neg hc]
    refine attemptsGuarded_all_append hs (fun f => ?_) f
    rfl

/-- One `on_page_loaded` call preserves quietness, and a trace that
observed the flag set forces the flag at the next read index. -/
theorem cb_qac (cancel : Nat → Bool) (hm : MonoCancel cancel) (s : WState) (p : PageInfo)
    (h1 : quietAfterCancel s.trace = true)
    (h2 : hasTrueCheck s.trace = true → cancel s.ci = true) :
    quietAfterCancel (worker_on_page_loaded cancel s p).trace = true ∧
      (hasTrueCheck (worker_on_page_loaded cancel s p).trace = true →
        cancel (worker_on_page_loaded cancel s p).ci = true) := by
  by_cases hc : cancel s.ci
  · simp only [worker_on_page_loaded, if_pos hc]
    constructor
    · exact qac_append s.trace h1 rfl (fun _ => by simp [allowedAfter])
    · intro _
      exact hm s.ci (s.ci + 1) (Nat.le_succ _) hc
  · simp only [worker_on_page_loaded, if_neg hc]
    constructor
    · exact qac_append s.trace h1 rfl (fun ht => absurd (h2 ht) (by simp [hc]))
    · intro h
      rw [hasTrueCheck_append] at h
      have hblock : hasTrueCheck [Act.check s.ci false, Act.append p.files,
          Act.emit (Ev.page p), Act.emit (Ev.progress (pageMsg p))] = false := rfl
      rw [hblock, Bool.or_false] at h
      exact absurd (h2 h) (by simp [hc])

/-- The listing run preserves tick/append-guardedness. -/
theorem wlisting_guarded (cancel : Nat → Bool) (mp : Nat) :
    ∀ (store : List (List FileInfo)) (err : Option String) (pc tf : Nat) (s : WState),
      (∀ q, guardedActs q s.trace = true) →
      ∀ q, guardedActs q
        (list_files_progressive (worker_on_page_loaded cancel) mp store err pc tf s).1.trace
          = true := by
  intro store
  induction store with
  | nil => intro err pc tf s hs q; cases err <;> exact hs q
  | cons page rest ih =>
    intro err pc tf s hs q
    by_cases hemp : page.isEmpty
    · by_cases hcut : pc + 1 ≥ mp
      · simp only [list_files_progressive, if_pos hemp, if_pos hcut]
        exact hs q
      · simp only [list_files_progressive, if_pos hemp, if_neg hcut]
        exact ih err (pc + 1) (tf + page.length) s hs q
    · by_cases hcut : pc + 1 ≥ mp
      · simp only [list_files_progressive, if_neg hemp, if_pos hcut]
        exact cb_guarded cancel s _ hs q
      · simp only [list_files_progressive, if_neg hemp, if_neg hcut]
        exact ih err (pc + 1) (tf + page.length) _ (cb_guarded cancel s _ hs) q

/-- The listing run starts no attempt. -/
theorem wlisting_attempts (cancel : Nat → Bool) (mp : Nat) :
    ∀ (store : List (List FileInfo)) (err : Option String) (pc tf : Nat) (s : WState),
      (∀ f, attemptsGuarded f s.trace = true) →
      ∀ f, attemptsGuarded f
        (list_files_progressive (worker_on_page_loaded cancel) mp store err pc tf s).1.trace
          = true := by
  intro store
  induction store with
  | nil => intro err pc tf s hs f; cases err <;> exact hs f
  | cons page rest ih =>
    intro err pc tf s hs f
    by_cases hemp : page.isEmpty
    · by_cases hcut : pc + 1 ≥ mp
      · simp only [list_files_progressive, if_pos hemp, if_pos hcut]
        exact hs f
      · simp only [list_files_progressive, if_pos hemp, if_neg hcut]
        exact ih err (pc + 1) (tf + page.length) s hs f
    · by_cases hcut : pc + 1 ≥ mp
      · simp only [list_files_progressive, if_neg hemp, if_pos hcut]
        exact cb_attempts cancel s _ hs f
      · simp only [list_files_progressive, if_neg hemp, if_neg hcut]
        exact ih err (pc + 1) (tf + page.length) _ (cb_attempts cancel s _ hs) f

/-- The listing run preserves quietness, and an observed cancellation
forces the flag at the final read index. -/
theorem wlisting_qac (cancel : Nat → Bool) (hm : MonoCancel cancel) (mp : Nat) :
    ∀ (store : List (List FileInfo)) (err : Option String) (pc tf : Nat) (s : WState),
      quietAfterCancel s.trace = true →
      (hasTrueCheck s.trace = true → cancel s.ci = true) →
      quietAfterCancel
          (list_files_progressive (worker_on_page_loaded cancel) mp store err pc tf s).1.trace
          = true ∧
        (hasTrueCheck
            (list_files_progressive (worker_on_page_loaded cancel) mp store err pc tf s).1.trace
            = true →
          cancel
            (list_files_progressive (worker_on_page_loaded cancel) mp store err pc tf s).1.ci
            = true) := by
  intro store
  induction store with
  | nil => intro err pc tf s h1 h2; cases err <;> exact ⟨h1, h2⟩
  | cons page rest ih =>
    intro err pc tf s h1 h2
    by_cases hemp : page.isEmpty
    · by_cases hcut : pc + 1 ≥ mp
      · simp only [list_files_progressive, if_pos hemp, if_pos hcut]
        exact ⟨h1, h2⟩
      · simp only [list_files_progressive, if_pos hemp, if_neg hcut]
        exact ih err (pc + 1) (tf + page.length) s h1 h2
    · by_cases hcut : pc + 1 ≥ mp
      · simp only [list_files_progressive, if_neg hemp, if_pos hcut]
        exact cb_qac cancel hm s _ h1 h2
      · simp only [list_files_progressive, if_neg hemp, if_neg hcut]
        obtain ⟨g1, g2⟩ := cb_qac cancel hm s _ h1 h2
        exact ih err (pc + 1) (tf + page.length) _ g1 g2

/-- The listing performed by attempt `attempt + 1`, starting from a fresh
`all_files` and read index `ci + 1` (the loop condition consumed read
`ci`). -/
def wlist (cancel : Nat → Bool) (behavior : Nat → List (List FileInfo) × Option String)
    (mp attempt ci : Nat) : WState × Except String ListResult :=
  list_files_progressive (worker_on_page_loaded cancel) mp
    (behavior (attempt + 1)).1 (behavior (attempt + 1)).2 0 0 ⟨ci + 1, [], []⟩

/-- Unfolding the worker loop when the loop condition observes the flag. -/
theorem runAux_cancelled (cancel : Nat → Bool) (behavior : Nat → List (List FileInfo) × Option String)
    (mr mp k attempt ci : Nat) (hc : cancel ci = true) :
    S3Worker_runAux cancel behavior mr mp (k + 1) attempt ci = [Act.check ci true] := by
  simp [S3Worker_runAux, hc]

/-- Unfolding a successful attempt whose post-listing read observes the
flag: the run ends silently after that read. -/
theorem runAux_ok_cancelled (cancel : Nat → Bool)
    (behavior : Nat → List (List FileInfo) × Option String)
    (mr mp k attempt ci : Nat) (res : ListResult) (hc : cancel ci = false)
    (hres : (wlist cancel behavior mp attempt ci).2 = Except.ok res)
    (hcw : cancel (wlist cancel behavior mp attempt ci).1.ci = true) :
    S3Worker_runAux cancel behavior mr mp (k + 1) attempt ci
      = preActs (attempt + 1) mr ci ++ (wlist cancel behavior mp attempt ci).1.trace
          ++ [Act.check (wlist cancel behavior mp attempt ci).1.ci true] := by
  simp only [wlist] at hres hcw ⊢
  simp only [S3Worker_runAux, hc, Bool.false_eq_true, ite_false, hres, hcw, ite_true,
    preActs]

/-- Unfolding a successful attempt whose post-listing read observes no
cancellation: the summary progress signal and `files_loaded` follow. -/
theorem runAux_ok_general (cancel : Nat → Bool)
    (behavior : Nat → List (List FileInfo) × Option String)
    (mr mp k attempt ci : Nat) (res : ListResult) (hc : cancel ci = false)
    (hres : (wlist cancel behavior mp attempt ci).2 = Except.ok res)
    (hcw : cancel (wlist cancel behavior mp attempt ci).1.ci = false) :
    S3Worker_runAux cancel behavior mr mp (k + 1) attempt ci
      = preActs (attempt + 1) mr ci ++ (wlist cancel behavior mp attempt ci).1.trace
          ++ [Act.check (wlist cancel behavior mp attempt ci).1.ci false,
            Act.emit (Ev.progress ("Loaded " ++ toString res.total_files_found ++ " files ("
              ++ toString res.pages_processed ++ " pages)")),
            Act.emit (Ev.filesLoaded (wlist cancel behavior mp attempt ci).1.all_files)] := by
  simp only [wlist] at hres hcw ⊢
  simp only [S3Worker_runAux, hc, Bool.false_eq_true, ite_false, hres, hcw, preActs]

/-- Unfolding a failing, non-final attempt whose backoff wait is aborted by
a stop request. -/
theorem runAux_err_stopped (cancel : Nat → Bool)
    (behavior : Nat → List (List FileInfo) × Option String)
    (mr mp k attempt ci : Nat) (e : String) (hc : cancel ci = false)
    (hres : (wlist cancel behavior mp attempt ci).2 = Except.error e)
    (hlt : attempt + 1 < mr)
    (hbs : (backoffWait cancel 20 (wlist cancel behavior mp attempt ci).1.ci).2.2 = true) :
    S3Worker_runAux cancel behavior mr mp (k + 1) attempt ci
      = preActs (attempt + 1) mr ci ++ (wlist cancel behavior mp attempt ci).1.trace
          ++ [Act.emit (Ev.retryAttempt (attempt + 1) mr e)]
          ++ (backoffWait cancel 20 (wlist cancel behavior mp attempt ci).1.ci).1 := by
  simp only [wlist] at hres hbs ⊢
  simp only [S3Worker_runAux, hc, Bool.false_eq_true, ite_false, hres, if_pos hlt, hbs,
    ite_true, preActs]

/-- Unfolding a failing, non-final attempt whose backoff wait completes:
the loop iterates. -/
theorem runAux_err_retry (cancel : Nat → Bool)
    (behavior : Nat → List (List FileInfo) × Option String)
    (mr mp k attempt ci : Nat) (e : String) (hc : cancel ci = false)
    (hres : (wlist cancel behavior mp attempt ci).2 = Except.error e)
    (hlt : attempt + 1 < mr)
    (hbs : (backoffWait cancel 20 (wlist cancel behavior mp attempt ci).1.ci).2.2 = false) :
    S3Worker_runAux cancel behavior mr mp (k + 1) attempt ci
      = preActs (attempt + 1) mr ci ++ (wlist cancel behavior mp attempt ci).1.trace
          ++ [Act.emit (Ev.retryAttempt (attempt + 1) mr e)]
          ++ (backoffWait cancel 20 (wlist cancel behavior mp attempt ci).1.ci).1
          ++ S3Worker_runAux cancel behavior mr mp k (attempt + 1)
              (backoffWait cancel 20 (wlist cancel behavior mp attempt ci).1.ci).2.1 := by
  simp only [wlist] at hres hbs ⊢
  simp only [S3Worker_runAux, hc, Bool.false_eq_true, ite_false, hres, if_pos hlt, hbs,
    preActs]

/-- Unfolding the final failing attempt. -/
theorem runAux_err_last (cancel : Nat → Bool)
    (behavior : Nat → List (List FileInfo) × Option String)
    (mr mp k attempt ci : Nat) (e : String) (hc : cancel ci = false)
    (hres : (wlist cancel behavior mp attempt ci).2 = Except.error e)
    (hge : ¬(attempt + 1 < mr)) :
    S3Worker_runAux cancel behavior mr mp (k + 1) attempt ci
      = preActs (attempt + 1) mr ci ++ (wlist cancel behavior mp attempt ci).1.trace
          ++ [Act.emit (Ev.maxRetriesExceeded mr e)] := by
  simp only [wlist] at hres ⊢
  simp only [S3Worker_runAux, hc, Bool.false_eq_true, ite_false, hres, if_neg hge, preActs]

/-- The pre-attempt actions: guarded, quiet, flag never observed set, and
the attempt start is covered by the loop condition's read. -/
theorem preActs_facts (a mr ci : Nat) :
    (∀ q, guardedActs q (preActs a mr ci) = true) ∧
    (∀ f, attemptsGuarded f (preActs a mr ci) = true) ∧
    quietAfterCancel (preActs a mr ci) = true ∧
    hasTrueCheck (preActs a mr ci) = false := by
  refine ⟨fun q => rfl, fun f => ?_, rfl, rfl⟩
  simp [preActs, attemptsGuarded]

/-- The empty trace observed no set flag. -/
theorem hasTrueCheck_nil_ne : ¬(hasTrueCheck ([] : List Act) = true) := by decide

/-- In every worker run, each `msleep` tick and each `all_files.extend`
immediately follows a read of the stop flag that came back false. -/
theorem runAux_guarded (cancel : Nat → Bool)
    (behavior : Nat → List (List FileInfo) × Option String) (mr mp : Nat) :
    ∀ fuel attempt ci q,
      guardedActs q (S3Worker_runAux cancel behavior mr mp fuel attempt ci) = true := by
  intro fuel
  induction fuel with
  | zero => intro attempt ci q; rfl
  | succ k ih =>
    intro attempt ci q
    by_cases hc : cancel ci = true
    · rw [runAux_cancelled cancel behavior mr mp k attempt ci hc]
      rfl
    · have hcf : cancel ci = false := by simpa using hc
      have hwg : ∀ q, guardedActs q (wlist cancel behavior mp attempt ci).1.trace = true :=
        fun q => wlisting_guarded cancel mp (behavior (attempt + 1)).1
          (behavior (attempt + 1)).2 0 0 ⟨ci + 1, [], []⟩ (fun _ => rfl) q
      cases hres : (wlist cancel behavior mp attempt ci).2 with
      | ok res =>
        by_cases hcw : cancel (wlist cancel behavior mp attempt ci).1.ci = true
        · rw [runAux_ok_cancelled cancel behavior mr mp k attempt ci res hcf hres hcw]
          refine guardedActs_all_append
            (guardedActs_all_append (preActs_facts _ _ _).1 hwg) (fun q => ?_) q
          rfl
        · have hcwf : cancel (wlist cancel behavior mp attempt ci).1.ci = false := by
            simpa using hcw
          rw [runAux_ok_general cancel behavior mr mp k attempt ci res hcf hres hcwf]
          refine guardedActs_all_append
            (guardedActs_all_append (preActs_facts _ _ _).1 hwg) (fun q => ?_) q
          rfl
      | error e =>
        by_cases hlt : attempt + 1 < mr
        · by_cases hbs :
            (backoffWait cancel 20 (wlist cancel behavior mp attempt ci).1.ci).2.2 = true
          · rw [runAux_err_stopped cancel behavior mr mp k attempt ci e hcf hres hlt hbs]
            refine guardedActs_all_append (guardedActs_all_append
              (guardedActs_all_append (preActs_facts _ _ _).1 hwg) (fun q => ?_))
              (backoff_guarded cancel 20 _) q
            rfl
          · have hbsf :
                (backoffWait cancel 20 (wlist cancel behavior mp attempt ci).1.ci).2.2
                  = false := by simpa using hbs
            rw [runAux_err_retry cancel behavior mr mp k attempt ci e hcf hres hlt hbsf]
            refine guardedActs_all_append (guardedActs_all_append (guardedActs_all_append
              (guardedActs_all_append (preActs_facts _ _ _).1 hwg) (fun q => ?_))
              (backoff_guarded cancel 20 _)) (ih (attempt + 1) _) q
            rfl
        · rw [runAux_err_last cancel behavior mr mp k attempt ci e hcf hres hlt]
          refine guardedActs_all_append
            (guardedActs_all_append (preActs_facts _ _ _).1 hwg) (fun q => ?_) q
          rfl

/-- In every worker run, each connection attempt is started only after a
read of the stop flag (the loop condition) came back false since the
previous attempt. -/
theorem runAux_attemptsGuarded (cancel : Nat → Bool)
    (behavior : Nat → List (List FileInfo) × Option String) (mr mp : Nat) :
    ∀ fuel attempt ci f,
      attemptsGuarded f (S3Worker_runAux cancel behavior mr mp fuel attempt ci) = true := by
  intro fuel
  induction fuel with
  | zero => intro attempt ci f; rfl
  | succ k ih =>
    intro attempt ci f
    by_cases hc : cancel ci = true
    · rw [runAux_cancelled cancel behavior mr mp k attempt ci hc]
      rfl
    · have hcf : cancel ci = false := by simpa using hc
      have hwa : ∀ f, attemptsGuarded f (wlist cancel behavior mp attempt ci).1.trace = true :=
        fun f => wlisting_attempts cancel mp (behavior (attempt + 1)).1
          (behavior (attempt + 1)).2 0 0 ⟨ci + 1, [], []⟩ (fun _ => rfl) f
      cases hres : (wlist cancel behavior mp attempt ci).2 with
      | ok res =>
        by_cases hcw : cancel (wlist cancel behavior mp attempt ci).1.ci = true
        · rw [runAux_ok_cancelled cancel behavior mr mp k attempt ci res hcf hres hcw]
          refine attemptsGuarded_all_append
            (attemptsGuarded_all_append (preActs_facts _ _ _).2.1 hwa) (fun f => ?_) f
          rfl
        · have hcwf : cancel (wlist cancel behavior mp attempt ci).1.ci = false := by
            simpa using hcw
          rw [runAux_ok_general cancel behavior mr mp k attempt ci res hcf hres hcwf]
          refine attemptsGuarded_all_append
            (attemptsGuarded_all_append (preActs_facts _ _ _).2.1 hwa) (fun f => ?_) f
          rfl
      | error e =>
        by_cases hlt : attempt + 1 < mr
        · by_cases hbs :
            (backoffWait cancel 20 (wlist cancel behavior mp attempt ci).1.ci).2.2 = true
          · rw [runAux_err_stopped cancel behavior mr mp k attempt ci e hcf hres hlt hbs]
            refine attemptsGuarded_all_append (attemptsGuarded_all_append
              (attemptsGuarded_all_append (preActs_facts _ _ _).2.1 hwa) (fun f => ?_))
              (backoff_attempts cancel 20 _) f
            rfl
          · have hbsf :
                (backoffWait cancel 20 (wlist cancel behavior mp attempt ci).1.ci).2.2
                  = false := by simpa using hbs
            rw [runAux_err_retry cancel behavior mr mp k attempt ci e hcf hres hlt hbsf]
            refine attemptsGuarded_all_append (attemptsGuarded_all_append
              (attemptsGuarded_all_append (attemptsGuarded_all_append
                (preActs_facts _ _ _).2.1 hwa) (fun f => ?_))
              (backoff_attempts cancel 20 _)) (ih (attempt + 1) _) f
            rfl
        · rw [runAux_err_last cancel behavior mr mp k attempt ci e hcf hres hlt]
          refine attemptsGuarded_all_append
            (attemptsGuarded_all_append (preActs_facts _ _ _).2.1 hwa) (fun f => ?_) f
          rfl

/-- In every worker run under a monotone flag, once a read observes the
flag set only further (set) reads and the retry or terminal-failure signal
of the failure in flight follow: no page, progress or completion signal, no
append, no tick, no new attempt. -/
theorem runAux_quiet (cancel : Nat → Bool)
    (behavior : Nat → List (List FileInfo) × Option String) (mr mp : Nat)
    (hm : MonoCancel cancel) :
    ∀ fuel attempt ci,
      quietAfterCancel (S3Worker_runAux cancel behavior mr mp fuel attempt ci) = true := by
  intro fuel
  induction fuel with
  | zero => intro attempt ci; rfl
  | succ k ih =>
    intro attempt ci
    by_cases hc : cancel ci = true
    · rw [runAux_cancelled cancel behavior mr mp k attempt ci hc]
      rfl
    · have hcf : cancel ci = false := by simpa using hc
      obtain ⟨hq1, hq2⟩ := wlisting_qac cancel hm mp (behavior (attempt + 1)).1
        (behavior (attempt + 1)).2 0 0 ⟨ci + 1, [], []⟩ rfl
        (fun h => absurd h hasTrueCheck_nil_ne)
      have hqpre : quietAfterCancel ((preActs (attempt + 1) mr ci)
          ++ (wlist cancel behavior mp attempt ci).1.trace) = true := by
        refine qac_append _ (preActs_facts _ _ _).2.2.1 hq1 (fun ht => ?_)
        rw [(preActs_facts (attempt + 1) mr ci).2.2.2] at ht
        exact absurd ht (by decide)
      have hpret : hasTrueCheck ((preActs (attempt + 1) mr ci)
          ++ (wlist cancel behavior mp attempt ci).1.trace) = true →
          cancel (wlist cancel behavior mp attempt ci).1.ci = true := by
        intro h
        rw [hasTrueCheck_append, (preActs_facts (attempt + 1) mr ci).2.2.2,
          Bool.false_or] at h
        exact hq2 h
      cases hres : (wlist cancel behavior mp attempt ci).2 with
      | ok res =>
        by_cases hcw : cancel (wlist cancel behavior mp attempt ci).1.ci = true
        · rw [runAux_ok_cancelled cancel behavior mr mp k attempt ci res hcf hres hcw]
          refine qac_append _ hqpre rfl (fun _ => ?_)
          simp [allowedAfter]
        · have hcwf : cancel (wlist cancel behavior mp attempt ci).1.ci = false := by
            simpa using hcw
          rw [runAux_ok_general cancel behavior mr mp k attempt ci res hcf hres hcwf]
          refine qac_append _ hqpre rfl (fun h => ?_)
          exact absurd (hpret h) (by simp [hcwf])
      | error e =>
        by_cases hlt : attempt + 1 < mr
        · obtain ⟨hb1, hb2, hb3⟩ :=
            backoff_qac cancel 20 (wlist cancel behavior mp attempt ci).1.ci
          have hqretry : quietAfterCancel (((preActs (attempt + 1) mr ci)
              ++ (wlist cancel behavior mp attempt ci).1.trace)
              ++ [Act.emit (Ev.retryAttempt (attempt + 1) mr e)]) = true := by
            refine qac_append _ hqpre rfl (fun _ => ?_)
            simp [allowedAfter]
          have hretryt : hasTrueCheck (((preActs (attempt + 1) mr ci)
              ++ (wlist cancel behavior mp attempt ci).1.trace)
              ++ [Act.emit (Ev.retryAttempt (attempt + 1) mr e)]) = true →
              cancel (wlist cancel behavior mp attempt ci).1.ci = true := by
            intro h
            rw [hasTrueCheck_append] at h
            have hr0 : hasTrueCheck [Act.emit (Ev.retryAttempt (attempt + 1) mr e)]
                = false := rfl
            rw [hr0, Bool.or_false] at h
            exact hpret h
          by_cases hbs :
            (backoffWait cancel 20 (wlist cancel behavior mp attempt ci).1.ci).2.2 = true
          · rw [runAux_err_stopped cancel behavior mr mp k attempt ci e hcf hres hlt hbs]
            exact qac_append _ hqretry hb1 (fun h => hb2 (hretryt h))
          · have hbsf :
                (backoffWait cancel 20 (wlist cancel behavior mp attempt ci).1.ci).2.2
                  = false := by simpa using hbs
            rw [runAux_err_retry cancel behavior mr mp k attempt ci e hcf hres hlt hbsf]
            refine qac_append _
              (qac_append _ hqretry hb1 (fun h => hb2 (hretryt h)))
              (ih (attempt + 1) _) (fun h => ?_)
            rw [hasTrueCheck_append] at h
            rcases Bool.or_eq_true_iff.mp h with h | h
            · have hcw' := hretryt h
              have hstop := backoff_stops cancel 19
                (wlist cancel behavior mp attempt ci).1.ci hcw'
              rw [show (19 : Nat) + 1 = 20 from rfl, hbsf] at hstop
              simp at hstop
            · rw [hb3 hbsf] at h
              simp at h
        · rw [runAux_err_last cancel behavior mr mp k attempt ci e hcf hres hlt]
          refine qac_append _ hqpre rfl (fun _ => ?_)
          simp [allowedAfter]

/-- **C4** (amended).  Under a monotone cancellation flag: (a) each 100ms
backoff tick and (b) each append of a just-fetched page immediately follow
a read of the flag that came back false; (c) each gateway attempt is
started only after such a read since the previous attempt; and once a read
observes the flag set, no further page, progress or completion signal, no
append, no tick and no new attempt occurs — only further (set) flag reads
and the retry or terminal-failure signal of the failure already in flight
may still follow.  The claim's stronger promise that no retry event
follows an observed cancellation fails on the code (see the
counterexample). -/
theorem C4_cancellation_checks (cancel : Nat → Bool)
    (behavior : Nat → List (List FileInfo) × Option String) (mr mp : Nat)
    (hm : MonoCancel cancel) :
    guardedActs none (S3Worker_run cancel behavior mr mp) = true ∧
    attemptsGuarded false (S3Worker_run cancel behavior mr mp) = true ∧
    quietAfterCancel (S3Worker_run cancel behavior mr mp) = true :=
  ⟨runAux_guarded cancel behavior mr mp mr 0 0 none,
   runAux_attemptsGuarded cancel behavior mr mp mr 0 0 false,
   runAux_quiet cancel behavior mr mp hm mr 0 0⟩

/-- A flag set from the second read on (a stop requested during the first
listing), and a gateway yielding one page and then raising. -/
def c4Cancel : Nat → Bool := fun i => decide (1 ≤ i)

/-- One page, then an exception — on every attempt. -/
def c4Behavior : Nat → List (List FileInfo) × Option String :=
  fun _ => ([[sampleFile "a"]], some "boom")

/-- `c4Cancel` never resets. -/
theorem c4Cancel_mono : MonoCancel c4Cancel := by
  intro i j hij hi
  simp only [c4Cancel, decide_eq_true_eq] at hi ⊢
  omega

/-- **C4** counterexample: the worker observes the flag set in
`on_page_loaded` (read index 1, so the page's signals are suppressed) and
afterwards still emits the `retry_attempt` signal for the exception in
flight: an event follows the observed cancellation, refuting the claim as
stated. -/
theorem C4_counterexample :
    silentAfterCancel (S3Worker_run c4Cancel c4Behavior 3 10) = false := by decide

/-- **C4** witness: the amended theorem applied to the concrete monotone
flag and failing gateway. -/
theorem C4_witness :
    MonoCancel c4Cancel ∧
      (guardedActs none (S3Worker_run c4Cancel c4Behavior 3 10) = true ∧
       attemptsGuarded false (S3Worker_run c4Cancel c4Behavior 3 10) = true ∧
       quietAfterCancel (S3Worker_run c4Cancel c4Behavior 3 10) = true) :=
  ⟨c4Cancel_mono, C4_cancellation_checks c4Cancel c4Behavior 3 10 c4Cancel_mono⟩
